import Mathlib

/-!
Verification of the Syncthing-Recovery core (src/recovery.py) against its
natural-language specification.

The Python source is shallowly embedded:
* filenames and paths are `String` (compared and split as character lists,
  mirroring `os.path` on POSIX);
* `datetime` values are encoded as `Nat` in the order-preserving mixed-radix
  form YYYYMMDDHHMMSS (each component is below its radix, so `Nat` order
  coincides with `datetime` order);
* `datetime.strptime(s, "%Y%m%d-%H%M%S")` is modelled on the zero-padded
  canonical 15-character form emitted by the backup store, including calendar
  day-of-month and leap-year validation (non-padded spellings that CPython's
  lenient regex would also accept are rejected here; no claim depends on them);
* exceptions are `Except Unit`: an uncaught `ValueError` from `strptime`
  propagates out of `get_backup_file_info` and `find_and_copy_backup` exactly
  as in the source, while the `except` around `shutil.copy2` is local;
* the filesystem and the copy primitive are an explicit environment `Env`:
  `listdir p = none` models `not os.path.exists(p)`, `listdir p = some l`
  models the directory listing, and `copy_ok src dst` tells whether
  `shutil.copy2 src dst` succeeds;
* the module-level configuration (`BACKUP_DIR`, `RECOVERY_DIR`,
  `REFERENCE_TIME + TIME_LIMIT`) becomes fields of `Env`; the cutoff is the
  already-summed `REFERENCE_TIME + TIME_LIMIT` value;
* `breakpoint()` (recovery.py line 208) is a no-op: control returns from the
  debugger and the following lines run, classifying the file as missing.
-/

namespace SyncRec

/-- Index of the last occurrence of a character in a character list
(Python `str.rfind`, as an `Option` instead of -1). -/
def rfindIdx (c : Char) : List Char → Option Nat
  | [] => none
  | x :: xs =>
    match rfindIdx c xs with
    | some i => some (i + 1)
    | none => if x = c then some 0 else none

/-- Python `str.startswith` (exact prefix match on characters). -/
def starts_with (s pre : String) : Bool :=
  pre.toList.isPrefixOf s.toList

/-- Python `str.endswith` (exact suffix match on characters). -/
def ends_with (s suf : String) : Bool :=
  suf.toList.reverse.isPrefixOf s.toList.reverse

/-- The suffix of `s` after the last occurrence of `c`; the whole string if
`c` does not occur.  This is `s.split(c)[-1]` in Python. -/
def last_segment (c : Char) (s : String) : String :=
  ((s.toList.reverse.takeWhile (fun x => x ≠ c)).reverse).asString

/-- The index right after the last path separator: the first character of
the basename (`sepIndex + 1` in `posixpath.splitext`). -/
def split_index (l : List Char) : Nat :=
  match rfindIdx '/' l with
  | none => 0
  | some s => s + 1

/-- `os.path.splitext` (POSIX): split at the last '.', except that a run of
leading dots in the basename does not start an extension. -/
def os_splitext (p : String) : String × String :=
  match rfindIdx '.' p.toList with
  | none => (p, "")
  | some di =>
    if split_index p.toList ≤ di then
      if ((p.toList.drop (split_index p.toList)).take
            (di - split_index p.toList)).any (fun x => x ≠ '.') then
        ((p.toList.take di).asString, (p.toList.drop di).asString)
      else (p, "")
    else (p, "")

/-- recovery.py `split_extension`: `os.path.splitext`, but a dotfile with no
further suffix (empty extension, name starting with '.') has name and
extension swapped, matching the syncthing convention. -/
def split_extension (filename : String) : String × String :=
  if starts_with (os_splitext filename).1 "." ∧ (os_splitext filename).2 = "" then
    ("", (os_splitext filename).1)
  else os_splitext filename

/-- Value of a decimal digit character. -/
def digitVal (c : Char) : Nat := c.toNat - 48

/-- Whether a year is a Gregorian leap year (`calendar.isleap`). -/
def is_leap (y : Nat) : Bool :=
  y % 4 = 0 ∧ (y % 100 ≠ 0 ∨ y % 400 = 0)

/-- Number of days in a month, as validated by `datetime`. -/
def days_in_month (y mo : Nat) : Nat :=
  if mo = 2 then (if is_leap y then 29 else 28)
  else if mo = 4 ∨ mo = 6 ∨ mo = 9 ∨ mo = 11 then 30
  else 31

/-- Order-preserving encoding of a datetime as a `Nat` (YYYYMMDDHHMMSS). -/
def encodeDT (y mo d h mi s : Nat) : Nat :=
  ((((y * 100 + mo) * 100 + d) * 100 + h) * 100 + mi) * 100 + s

/-- `datetime.strptime(s, "%Y%m%d-%HMS...")` on the canonical zero-padded
form `YYYYMMDD-HHMMSS`: 8 digits, a dash, 6 digits, with the field ranges
`datetime` enforces (month 1..12, day 1..days_in_month, hour ≤ 23,
minute ≤ 59, second ≤ 59, year ≥ 1).  Returns `none` where CPython raises
`ValueError`. -/
def parse_timestamp (s : String) : Option Nat :=
  match s.toList with
  | [y1, y2, y3, y4, m1, m2, d1, d2, dash, h1, h2, n1, n2, s1, s2] =>
    if dash = '-' ∧ ([y1, y2, y3, y4, m1, m2, d1, d2, h1, h2, n1, n2, s1, s2].all Char.isDigit) then
      let y := ((digitVal y1 * 10 + digitVal y2) * 10 + digitVal y3) * 10 + digitVal y4
      let mo := digitVal m1 * 10 + digitVal m2
      let d := digitVal d1 * 10 + digitVal d2
      let h := digitVal h1 * 10 + digitVal h2
      let mi := digitVal n1 * 10 + digitVal n2
      let sec := digitVal s1 * 10 + digitVal s2
      if 1 ≤ y ∧ 1 ≤ mo ∧ mo ≤ 12 ∧ 1 ≤ d ∧ d ≤ days_in_month y mo ∧
         h ≤ 23 ∧ mi ≤ 59 ∧ sec ≤ 59 then
        some (encodeDT y mo d h mi sec)
      else none
    else none
  | _ => none

/-- The timestamp of one backup candidate filename, as computed inside the
loop of `get_backup_file_info` (recovery.py lines 123-125):
`basename, ext = split_extension(file); timestamp_str = basename.split('~')[-1];
timestamp = datetime.strptime(timestamp_str, '%Y%m%d-%H%M%S')`.
`none` models the `ValueError` raised for a malformed timestamp segment. -/
def candidate_time (file : String) : Option Nat :=
  parse_timestamp (last_segment '~' (split_extension file).1)

/-- recovery.py `BackupFileInfo`: the selection outcome for one original
file.  `latest_*` track the overall maximum timestamp, `backup_*` the
maximum timestamp within the time limit (`chosen`). -/
structure BackupFileInfo where
  count : Nat := 0
  latest_time : Option Nat := none
  latest_file : Option String := none
  latest_outside_limit : Bool := false
  backup_file : Option String := none
  backup_time : Option Nat := none
deriving DecidableEq, Repr

/-- Lines 128-131: update the running overall maximum
(`if bak.latest_time is None or timestamp > bak.latest_time`). -/
def update_latest (cutoff : Nat) (bak : BackupFileInfo) (file : String)
    (timestamp : Nat) : BackupFileInfo :=
  match bak.latest_time with
  | none =>
    { bak with latest_time := some timestamp, latest_file := some file,
               latest_outside_limit := ! decide (timestamp ≤ cutoff) }
  | some lt =>
    if lt < timestamp then
      { bak with latest_time := some timestamp, latest_file := some file,
                 latest_outside_limit := ! decide (timestamp ≤ cutoff) }
    else bak

/-- Lines 133-136: update the running within-limit maximum
(`if bak.backup_time is None or timestamp > bak.backup_time`). -/
def update_backup (bak : BackupFileInfo) (file : String)
    (timestamp : Nat) : BackupFileInfo :=
  match bak.backup_time with
  | none => { bak with backup_time := some timestamp, backup_file := some file }
  | some bt =>
    if bt < timestamp then
      { bak with backup_time := some timestamp, backup_file := some file }
    else bak

/-- One iteration of the loop body of `get_backup_file_info` for a candidate
whose timestamp already parsed (lines 126-136):
`is_inside_time_limit = timestamp <= REFERENCE_TIME + TIME_LIMIT`, then both
running-maximum updates. -/
def apply_candidate (cutoff : Nat) (bak : BackupFileInfo) (file : String)
    (timestamp : Nat) : BackupFileInfo :=
  let bak1 := update_latest cutoff bak file timestamp
  if timestamp ≤ cutoff then update_backup bak1 file timestamp else bak1

/-- One iteration of the loop of `get_backup_file_info`, including the
`strptime` call that may raise (modelled as `Except`). -/
def process_candidate (cutoff : Nat) (bak : BackupFileInfo) (file : String) :
    Except Unit BackupFileInfo :=
  match candidate_time file with
  | none => .error ()
  | some timestamp => .ok (apply_candidate cutoff bak file timestamp)

/-- The `for file in backup_files` loop of `get_backup_file_info`. -/
def get_backup_aux (cutoff : Nat) (bak : BackupFileInfo) :
    List String → Except Unit BackupFileInfo
  | [] => .ok bak
  | file :: rest =>
    match process_candidate cutoff bak file with
    | .error e => .error e
    | .ok bak2 => get_backup_aux cutoff bak2 rest

/-- recovery.py `get_backup_file_info` (lines 114-138): the Revision
Selector.  `cutoff` is the global `REFERENCE_TIME + TIME_LIMIT`.  An
unparsable candidate timestamp raises, which surfaces as `.error ()`. -/
def get_backup_file_info (cutoff : Nat) (backup_files : List String) :
    Except Unit BackupFileInfo :=
  get_backup_aux cutoff { count := backup_files.length } backup_files

/-- `posixpath.basename`: the part of a path after the last '/'. -/
def basename (p : String) : String :=
  match rfindIdx '/' p.toList with
  | none => p
  | some i => (p.toList.drop (i + 1)).asString

/-- `posixpath.dirname`: the part of a path before the last '/', with
trailing slashes stripped unless the head is all slashes. -/
def dirname (p : String) : String :=
  match rfindIdx '/' p.toList with
  | none => ""
  | some i =>
    let head := p.toList.take (i + 1)
    if head.all (fun x => x = '/') then head.asString
    else (head.reverse.dropWhile (fun x => x = '/')).reverse.asString

/-- `posixpath.join` for two components. -/
def joinPath (a b : String) : String :=
  if starts_with b "/" then b
  else if a = "" ∨ ends_with a "/" then a ++ b
  else a ++ "/" ++ b

/-- The environment of `find_and_copy_backup`: the module-level configuration
(`BACKUP_DIR`, `RECOVERY_DIR`, the cutoff `REFERENCE_TIME + TIME_LIMIT`) and
the external filesystem collaborators.  `listdir p = none` models
`not os.path.exists(p)`; `copy_ok src dst` models whether
`shutil.copy2(src, dst)` succeeds or raises. -/
structure Env where
  backup_dir : String
  recovery_dir : String
  cutoff : Nat
  listdir : String → Option (List String)
  copy_ok : String → String → Bool

/-- One row of `results.recovered_files` (recovery.py lines 222-232): the
7-tuple appended on a successful copy.  The `Option` fields mirror the
`Option`-typed fields of `BackupFileInfo` they are copied from. -/
structure RecoveredEntry where
  original : String
  backup_file : String
  backup_time : Option Nat
  count : Nat
  latest_outside_limit : Bool
  latest_file : Option String
  latest_time : Option Nat
deriving DecidableEq, Repr

/-- recovery.py `FileRecoveryResult` (lines 54-80), with every field of the
dataclass, defaults included. -/
structure FileRecoveryResult where
  total_original : Nat := 0
  total_missing : Nat := 0
  total_recovered : Nat := 0
  total_possibly_corrupted : Nat := 0
  earliest_file_used : Option String := none
  earliest_time_used : Option Nat := none
  latest_file_used : Option String := none
  latest_time_used : Option Nat := none
  missing_files : List String := []
  recovered_files : List RecoveredEntry := []
  possibly_corrupted_files : List String := []
deriving DecidableEq, Repr

/-- The classification one loop iteration of `find_and_copy_backup` gives to
one original file: appended to `missing_files`, appended to
`recovered_files`, or (on a copy error) logged and dropped. -/
inductive Outcome where
  | missing
  | copy_error
  | recovered (entry : RecoveredEntry)
deriving DecidableEq, Repr

/-- The expected backup subdirectory for one original file:
`os.path.join(BACKUP_DIR, os.path.dirname(file))` (line 187). -/
def backup_dir_of (env : Env) (file : String) : String :=
  joinPath env.backup_dir (dirname file)

/-- `os.path.join(BACKUP_DIR, file_dir, backup_info.backup_file)`
(lines 212-214). -/
def backup_path_of (env : Env) (file bfile : String) : String :=
  joinPath (backup_dir_of env file) bfile

/-- `os.path.join(RECOVERY_DIR, file)` (line 216). -/
def recovery_path_of (env : Env) (file : String) : String :=
  joinPath env.recovery_dir file

/-- The candidate filter (lines 183-197): directory entries whose name
starts with `base + '~'` and ends with the original's extension. -/
def candidate_filter (file_name : String) (entries : List String) : List String :=
  let ps := split_extension file_name
  entries.filter (fun f => starts_with f (ps.1 ++ "~") && ends_with f ps.2)

/-- One iteration of the `for index, file in enumerate(all_files)` loop of
`find_and_copy_backup` (lines 182-235), as the outcome for that file.
A `MalformedTimestamp` inside `get_backup_file_info` propagates as
`.error ()`.  The `breakpoint()` on line 208 returns, and the file is
classified missing. -/
def process_file (env : Env) (file : String) : Except Unit Outcome :=
  match env.listdir (backup_dir_of env file) with
  | none => .ok .missing
  | some entries =>
    if (candidate_filter (basename file) entries).isEmpty then .ok .missing
    else
      match get_backup_file_info env.cutoff (candidate_filter (basename file) entries) with
      | .error e => .error e
      | .ok backup_info =>
        match backup_info.backup_file with
        | none => .ok .missing
        | some bfile =>
          if env.copy_ok (backup_path_of env file bfile) (recovery_path_of env file) then
            .ok (.recovered
              { original := file
                backup_file := bfile
                backup_time := backup_info.backup_time
                count := backup_info.count
                latest_outside_limit := backup_info.latest_outside_limit
                latest_file := backup_info.latest_file
                latest_time := backup_info.latest_time })
          else .ok .copy_error

/-- How one outcome extends the accumulated result: `missing_files.append`
(lines 191, 201, 209), `recovered_files.append` (line 222), or nothing on a
copy error (lines 234-235).  No branch touches `possibly_corrupted_files` or
any of the aggregate fields. -/
def apply_outcome (results : FileRecoveryResult) (file : String)
    (o : Outcome) : FileRecoveryResult :=
  match o with
  | .missing => { results with missing_files := results.missing_files ++ [file] }
  | .copy_error => results
  | .recovered e => { results with recovered_files := results.recovered_files ++ [e] }

/-- The main loop of `find_and_copy_backup`, threading the accumulator. -/
def recover_go (env : Env) : List String → FileRecoveryResult →
    Except Unit FileRecoveryResult
  | [], results => .ok results
  | file :: rest, results =>
    match process_file env file with
    | .error e => .error e
    | .ok o => recover_go env rest (apply_outcome results file o)

/-- The accumulator as initialized on lines 166-168:
`results = FileRecoveryResult(); results.total_original = len(all_files)`. -/
def recovery_init (n : Nat) : FileRecoveryResult :=
  { total_original := n }

/-- recovery.py `find_and_copy_backup` (lines 156-241): the Recovery
Orchestrator.  An uncaught `ValueError` from a malformed candidate
timestamp aborts the whole run (`.error ()`). -/
def find_and_copy_backup (env : Env) (all_files : List String) :
    Except Unit FileRecoveryResult :=
  recover_go env all_files (recovery_init all_files.length)

/-! ### Step lemmas for the Selector loop body -/

theorem update_backup_latest_time (bak : BackupFileInfo) (f : String) (t : Nat) :
    (update_backup bak f t).latest_time = bak.latest_time := by
  unfold update_backup
  cases bak.backup_time <;> simp
  split <;> rfl

theorem update_backup_latest_file (bak : BackupFileInfo) (f : String) (t : Nat) :
    (update_backup bak f t).latest_file = bak.latest_file := by
  unfold update_backup
  cases bak.backup_time <;> simp
  split <;> rfl

theorem update_latest_backup_time (c : Nat) (bak : BackupFileInfo) (f : String) (t : Nat) :
    (update_latest c bak f t).backup_time = bak.backup_time := by
  unfold update_latest
  cases bak.latest_time <;> simp
  split <;> rfl

theorem update_latest_backup_file (c : Nat) (bak : BackupFileInfo) (f : String) (t : Nat) :
    (update_latest c bak f t).backup_file = bak.backup_file := by
  unfold update_latest
  cases bak.latest_time <;> simp
  split <;> rfl

/-- Case analysis of `update_latest`: either the candidate strictly beats
the running maximum and replaces it, or the record is returned unchanged. -/
theorem update_latest_cases (c : Nat) (bak : BackupFileInfo) (f : String) (t : Nat) :
    ((update_latest c bak f t).latest_time = some t ∧
     (update_latest c bak f t).latest_file = some f ∧
     ∀ lt, bak.latest_time = some lt → lt < t) ∨
    (update_latest c bak f t = bak ∧ ∃ lt, bak.latest_time = some lt ∧ t ≤ lt) := by
  unfold update_latest
  cases h : bak.latest_time with
  | none =>
    left
    refine ⟨rfl, rfl, ?_⟩
    intro l hl
    cases hl
  | some lt =>
    by_cases hcmp : lt < t
    · left
      dsimp only
      rw [if_pos hcmp]
      refine ⟨rfl, rfl, ?_⟩
      intro l hl
      cases hl
      exact hcmp
    · right
      dsimp only
      rw [if_neg hcmp]
      exact ⟨rfl, lt, rfl, Nat.le_of_not_lt hcmp⟩

/-- Case analysis of `update_backup`: either the candidate strictly beats
the running within-limit maximum and replaces it, or the record is returned
unchanged. -/
theorem update_backup_cases (bak : BackupFileInfo) (f : String) (t : Nat) :
    ((update_backup bak f t).backup_time = some t ∧
     (update_backup bak f t).backup_file = some f ∧
     ∀ bt, bak.backup_time = some bt → bt < t) ∨
    (update_backup bak f t = bak ∧ ∃ bt, bak.backup_time = some bt ∧ t ≤ bt) := by
  unfold update_backup
  cases h : bak.backup_time with
  | none =>
    left
    refine ⟨rfl, rfl, ?_⟩
    intro b hb
    cases hb
  | some bt =>
    by_cases hcmp : bt < t
    · left
      dsimp only
      rw [if_pos hcmp]
      refine ⟨rfl, rfl, ?_⟩
      intro b hb
      cases hb
      exact hcmp
    · right
      dsimp only
      rw [if_neg hcmp]
      exact ⟨rfl, bt, rfl, Nat.le_of_not_lt hcmp⟩

/-- Case analysis of one loop iteration on the `latest` slot. -/
theorem apply_latest_cases (c : Nat) (bak : BackupFileInfo) (f : String) (t : Nat) :
    ((apply_candidate c bak f t).latest_time = some t ∧
     (apply_candidate c bak f t).latest_file = some f ∧
     (∀ lt, bak.latest_time = some lt → lt < t)) ∨
    ((apply_candidate c bak f t).latest_time = bak.latest_time ∧
     (apply_candidate c bak f t).latest_file = bak.latest_file ∧
     (∃ lt, bak.latest_time = some lt ∧ t ≤ lt)) := by
  have hlt : (apply_candidate c bak f t).latest_time
      = (update_latest c bak f t).latest_time := by
    unfold apply_candidate
    split
    · exact update_backup_latest_time _ _ _
    · rfl
  have hlf : (apply_candidate c bak f t).latest_file
      = (update_latest c bak f t).latest_file := by
    unfold apply_candidate
    split
    · exact update_backup_latest_file _ _ _
    · rfl
  rcases update_latest_cases c bak f t with ⟨h1, h2, h3⟩ | ⟨heq, hex⟩
  · left
    exact ⟨hlt.trans h1, hlf.trans h2, h3⟩
  · right
    rw [hlt, hlf, heq]
    exact ⟨rfl, rfl, hex⟩

/-- Case analysis of one loop iteration on the `chosen` slot. -/
theorem apply_backup_cases (c : Nat) (bak : BackupFileInfo) (f : String) (t : Nat) :
    ((apply_candidate c bak f t).backup_time = some t ∧
     (apply_candidate c bak f t).backup_file = some f ∧ t ≤ c ∧
     (∀ bt, bak.backup_time = some bt → bt < t)) ∨
    ((apply_candidate c bak f t).backup_time = bak.backup_time ∧
     (apply_candidate c bak f t).backup_file = bak.backup_file ∧
     (t ≤ c → ∃ bt, bak.backup_time = some bt ∧ t ≤ bt)) := by
  by_cases hq : t ≤ c
  · have happ : apply_candidate c bak f t
        = update_backup (update_latest c bak f t) f t := by
      unfold apply_candidate
      rw [if_pos hq]
    rw [happ]
    rcases update_backup_cases (update_latest c bak f t) f t with ⟨h1, h2, h3⟩ | ⟨heq, hex⟩
    · left
      refine ⟨h1, h2, hq, ?_⟩
      intro bt hbt
      exact h3 bt ((update_latest_backup_time c bak f t).trans hbt)
    · right
      rw [heq, update_latest_backup_time, update_latest_backup_file]
      refine ⟨rfl, rfl, fun _ => ?_⟩
      rcases hex with ⟨bt, hbt, hle⟩
      exact ⟨bt, (update_latest_backup_time c bak f t).symm.trans hbt, hle⟩
  · have happ : apply_candidate c bak f t = update_latest c bak f t := by
      unfold apply_candidate
      rw [if_neg hq]
    right
    rw [happ, update_latest_backup_time, update_latest_backup_file]
    exact ⟨rfl, rfl, fun hc => absurd hc hq⟩

/-- The `latest` slot never decreases in one iteration. -/
theorem apply_latest_mono (c : Nat) (bak : BackupFileInfo) (f : String) (t : Nat)
    (lt : Nat) (h : bak.latest_time = some lt) :
    ∃ lt2, (apply_candidate c bak f t).latest_time = some lt2 ∧ lt ≤ lt2 := by
  rcases apply_latest_cases c bak f t with ⟨h1, _, h3⟩ | ⟨h1, _, _⟩
  · exact ⟨t, h1, Nat.le_of_lt (h3 lt h)⟩
  · exact ⟨lt, h1.trans h, Nat.le_refl lt⟩

/-- After an iteration, the `latest` slot is at least the candidate's time. -/
theorem apply_latest_ub (c : Nat) (bak : BackupFileInfo) (f : String) (t : Nat) :
    ∃ lt2, (apply_candidate c bak f t).latest_time = some lt2 ∧ t ≤ lt2 := by
  rcases apply_latest_cases c bak f t with ⟨h1, _, _⟩ | ⟨h1, _, lt, hlt, hle⟩
  · exact ⟨t, h1, Nat.le_refl t⟩
  · exact ⟨lt, h1.trans hlt, hle⟩

/-- The `chosen` slot never decreases in one iteration. -/
theorem apply_backup_mono (c : Nat) (bak : BackupFileInfo) (f : String) (t : Nat)
    (bt : Nat) (h : bak.backup_time = some bt) :
    ∃ bt2, (apply_candidate c bak f t).backup_time = some bt2 ∧ bt ≤ bt2 := by
  rcases apply_backup_cases c bak f t with ⟨h1, _, _, h4⟩ | ⟨h1, _, _⟩
  · exact ⟨t, h1, Nat.le_of_lt (h4 bt h)⟩
  · exact ⟨bt, h1.trans h, Nat.le_refl bt⟩

/-- After an iteration on a qualifying candidate, the `chosen` slot is at
least the candidate's time. -/
theorem apply_backup_ub (c : Nat) (bak : BackupFileInfo) (f : String) (t : Nat)
    (hq : t ≤ c) :
    ∃ bt2, (apply_candidate c bak f t).backup_time = some bt2 ∧ t ≤ bt2 := by
  rcases apply_backup_cases c bak f t with ⟨h1, _, _, _⟩ | ⟨h1, _, h3⟩
  · exact ⟨t, h1, Nat.le_refl t⟩
  · rcases h3 hq with ⟨bt, hbt, hle⟩
    exact ⟨bt, h1.trans hbt, hle⟩

/-- The `chosen` slot only ever holds the old value or a qualifying
candidate's time. -/
theorem apply_backup_origin (c : Nat) (bak : BackupFileInfo) (f : String) (t : Nat)
    (bt : Nat) (h : (apply_candidate c bak f t).backup_time = some bt) :
    bak.backup_time = some bt ∨ (bt = t ∧ t ≤ c) := by
  rcases apply_backup_cases c bak f t with ⟨h1, _, hq, _⟩ | ⟨h1, _, _⟩
  · right
    rw [h1] at h
    cases h
    exact ⟨rfl, hq⟩
  · left
    rw [← h1]
    exact h

/-- The `latest` slot only ever holds the old value or the candidate's time. -/
theorem apply_latest_origin (c : Nat) (bak : BackupFileInfo) (f : String) (t : Nat)
    (lt : Nat) (h : (apply_candidate c bak f t).latest_time = some lt) :
    bak.latest_time = some lt ∨ lt = t := by
  rcases apply_latest_cases c bak f t with ⟨h1, _, _⟩ | ⟨h1, _, _⟩
  · right
    rw [h1] at h
    cases h
    rfl
  · left
    rw [← h1]
    exact h

/-! ### Inductive invariants of the Selector loop -/

/-- If the loop completed, every candidate's timestamp parsed. -/
theorem aux_all_parse (c : Nat) (l : List String) :
    ∀ bak res, get_backup_aux c bak l = .ok res →
    ∀ x ∈ l, ∃ t, candidate_time x = some t := by
  induction l with
  | nil =>
    intro bak res _ x hx
    cases hx
  | cons f rest ih =>
    intro bak res h x hx
    rw [get_backup_aux] at h
    unfold process_candidate at h
    cases hct : candidate_time f with
    | none => rw [hct] at h; cases h
    | some t =>
      rw [hct] at h
      cases hx with
      | head => exact ⟨t, hct⟩
      | tail _ hx2 => exact ih _ _ h x hx2

/-- The `chosen` timestamp stays within the cutoff across the loop. -/
theorem aux_backup_le (c : Nat) (l : List String) :
    ∀ bak res, get_backup_aux c bak l = .ok res →
    (∀ tb, bak.backup_time = some tb → tb ≤ c) →
    ∀ tb, res.backup_time = some tb → tb ≤ c := by
  induction l with
  | nil =>
    intro bak res h hb
    rw [get_backup_aux] at h
    cases h
    exact hb
  | cons f rest ih =>
    intro bak res h hb
    rw [get_backup_aux] at h
    unfold process_candidate at h
    cases hct : candidate_time f with
    | none => rw [hct] at h; cases h
    | some t =>
      rw [hct] at h
      refine ih _ _ h ?_
      intro tb htb
      rcases apply_backup_origin c bak f t tb htb with hold | ⟨rfl, hq⟩
      · exact hb tb hold
      · exact hq

/-- The `chosen` timestamp, if defined, came from some candidate of the
list (or was already in the accumulator). -/
theorem aux_backup_origin (c : Nat) (l : List String) :
    ∀ bak res, get_backup_aux c bak l = .ok res →
    ∀ tb, res.backup_time = some tb →
    bak.backup_time = some tb ∨ ∃ x ∈ l, candidate_time x = some tb := by
  induction l with
  | nil =>
    intro bak res h tb htb
    rw [get_backup_aux] at h
    cases h
    exact Or.inl htb
  | cons f rest ih =>
    intro bak res h tb htb
    rw [get_backup_aux] at h
    unfold process_candidate at h
    cases hct : candidate_time f with
    | none => rw [hct] at h; cases h
    | some t =>
      rw [hct] at h
      rcases ih _ _ h tb htb with hacc | ⟨x, hx, hxt⟩
      · rcases apply_backup_origin c bak f t tb hacc with hold | ⟨rfl, _⟩
        · exact Or.inl hold
        · exact Or.inr ⟨f, List.mem_cons_self f rest, hct⟩
      · exact Or.inr ⟨x, List.mem_cons_of_mem f hx, hxt⟩

/-- The `chosen` timestamp never decreases across the loop. -/
theorem aux_backup_mono (c : Nat) (l : List String) :
    ∀ bak res, get_backup_aux c bak l = .ok res →
    ∀ tb, bak.backup_time = some tb →
    ∃ tb2, res.backup_time = some tb2 ∧ tb ≤ tb2 := by
  induction l with
  | nil =>
    intro bak res h tb htb
    rw [get_backup_aux] at h
    cases h
    exact ⟨tb, htb, Nat.le_refl tb⟩
  | cons f rest ih =>
    intro bak res h tb htb
    rw [get_backup_aux] at h
    unfold process_candidate at h
    cases hct : candidate_time f with
    | none => rw [hct] at h; cases h
    | some t =>
      rw [hct] at h
      rcases apply_backup_mono c bak f t tb htb with ⟨tb1, htb1, hle1⟩
      rcases ih _ _ h tb1 htb1 with ⟨tb2, htb2, hle2⟩
      exact ⟨tb2, htb2, hle1.trans hle2⟩

/-- After the loop, the `chosen` slot dominates every qualifying
candidate's timestamp. -/
theorem aux_backup_ub (c : Nat) (l : List String) :
    ∀ bak res, get_backup_aux c bak l = .ok res →
    ∀ x ∈ l, ∀ tx, candidate_time x = some tx → tx ≤ c →
    ∃ tb2, res.backup_time = some tb2 ∧ tx ≤ tb2 := by
  induction l with
  | nil =>
    intro bak res _ x hx
    cases hx
  | cons f rest ih =>
    intro bak res h x hx tx hxt hq
    rw [get_backup_aux] at h
    unfold process_candidate at h
    cases hct : candidate_time f with
    | none => rw [hct] at h; cases h
    | some t =>
      rw [hct] at h
      cases hx with
      | head =>
        rw [hct] at hxt
        cases hxt
        rcases apply_backup_ub c bak f tx hq with ⟨tb1, htb1, hle1⟩
        rcases aux_backup_mono c rest _ _ h tb1 htb1 with ⟨tb2, htb2, hle2⟩
        exact ⟨tb2, htb2, hle1.trans hle2⟩
      | tail _ hx2 => exact ih _ _ h x hx2 tx hxt hq

/-- The `latest` timestamp never decreases across the loop. -/
theorem aux_latest_mono (c : Nat) (l : List String) :
    ∀ bak res, get_backup_aux c bak l = .ok res →
    ∀ tl, bak.latest_time = some tl →
    ∃ tl2, res.latest_time = some tl2 ∧ tl ≤ tl2 := by
  induction l with
  | nil =>
    intro bak res h tl htl
    rw [get_backup_aux] at h
    cases h
    exact ⟨tl, htl, Nat.le_refl tl⟩
  | cons f rest ih =>
    intro bak res h tl htl
    rw [get_backup_aux] at h
    unfold process_candidate at h
    cases hct : candidate_time f with
    | none => rw [hct] at h; cases h
    | some t =>
      rw [hct] at h
      rcases apply_latest_mono c bak f t tl htl with ⟨tl1, htl1, hle1⟩
      rcases ih _ _ h tl1 htl1 with ⟨tl2, htl2, hle2⟩
      exact ⟨tl2, htl2, hle1.trans hle2⟩

/-- The `latest` timestamp, if defined, came from some candidate of the
list (or was already in the accumulator). -/
theorem aux_latest_origin (c : Nat) (l : List String) :
    ∀ bak res, get_backup_aux c bak l = .ok res →
    ∀ tl, res.latest_time = some tl →
    bak.latest_time = some tl ∨ ∃ x ∈ l, candidate_time x = some tl := by
  induction l with
  | nil =>
    intro bak res h tl htl
    rw [get_backup_aux] at h
    cases h
    exact Or.inl htl
  | cons f rest ih =>
    intro bak res h tl htl
    rw [get_backup_aux] at h
    unfold process_candidate at h
    cases hct : candidate_time f with
    | none => rw [hct] at h; cases h
    | some t =>
      rw [hct] at h
      rcases ih _ _ h tl htl with hacc | ⟨x, hx, hxt⟩
      · rcases apply_latest_origin c bak f t tl hacc with hold | rfl
        · exact Or.inl hold
        · exact Or.inr ⟨f, List.mem_cons_self f rest, hct⟩
      · exact Or.inr ⟨x, List.mem_cons_of_mem f hx, hxt⟩

/-- After the loop, the `latest` slot dominates every candidate's
timestamp. -/
theorem aux_latest_ub (c : Nat) (l : List String) :
    ∀ bak res, get_backup_aux c bak l = .ok res →
    ∀ x ∈ l, ∀ tx, candidate_time x = some tx →
    ∃ tl2, res.latest_time = some tl2 ∧ tx ≤ tl2 := by
  induction l with
  | nil =>
    intro bak res _ x hx
    cases hx
  | cons f rest ih =>
    intro bak res h x hx tx hxt
    rw [get_backup_aux] at h
    unfold process_candidate at h
    cases hct : candidate_time f with
    | none => rw [hct] at h; cases h
    | some t =>
      rw [hct] at h
      cases hx with
      | head =>
        rw [hct] at hxt
        cases hxt
        rcases apply_latest_ub c bak f tx with ⟨tl1, htl1, hle1⟩
        rcases aux_latest_mono c rest _ _ h tl1 htl1 with ⟨tl2, htl2, hle2⟩
        exact ⟨tl2, htl2, hle1.trans hle2⟩
      | tail _ hx2 => exact ih _ _ h x hx2 tx hxt

/-- First-occurrence characterization of the `latest` slot: the retained
file is the first candidate reaching the final maximum timestamp (strictly
later candidates with an equal timestamp never replace it, because the
update guard is a strict comparison). -/
theorem aux_latest_first (c : Nat) (l : List String) :
    ∀ bak res, get_backup_aux c bak l = .ok res →
    ∀ lt lf, res.latest_time = some lt → res.latest_file = some lf →
    (bak.latest_time = some lt ∧ bak.latest_file = some lf) ∨
    (∃ pre post, l = pre ++ lf :: post ∧ candidate_time lf = some lt ∧
      (∀ t0, bak.latest_time = some t0 → t0 < lt) ∧
      (∀ x ∈ pre, ∀ tx, candidate_time x = some tx → tx < lt)) := by
  induction l with
  | nil =>
    intro bak res h lt lf hlt hlf
    rw [get_backup_aux] at h
    cases h
    exact Or.inl ⟨hlt, hlf⟩
  | cons f rest ih =>
    intro bak res h lt lf hlt hlf
    rw [get_backup_aux] at h
    unfold process_candidate at h
    cases hct : candidate_time f with
    | none => rw [hct] at h; cases h
    | some t =>
      rw [hct] at h
      rcases ih _ _ h lt lf hlt hlf with ⟨hat, haf⟩ | ⟨pre, post, hsplit, hclf, hacc, hpre⟩
      · rcases apply_latest_cases c bak f t with ⟨h1, h2, h3⟩ | ⟨h1, h2, _⟩
        · rw [h1] at hat
          cases hat
          rw [h2] at haf
          cases haf
          right
          refine ⟨[], rest, rfl, hct, h3, ?_⟩
          intro x hx
          cases hx
        · left
          exact ⟨h1.symm.trans hat, h2.symm.trans haf⟩
      · right
        refine ⟨f :: pre, post, by simp [hsplit], hclf, ?_, ?_⟩
        · intro t0 ht0
          rcases apply_latest_mono c bak f t t0 ht0 with ⟨t1, ht1, hle1⟩
          exact Nat.lt_of_le_of_lt hle1 (hacc t1 ht1)
        · intro x hx tx hxt
          cases hx with
          | head =>
            rw [hct] at hxt
            cases hxt
            rcases apply_latest_ub c bak f t with ⟨t1, ht1, hle1⟩
            exact Nat.lt_of_le_of_lt hle1 (hacc t1 ht1)
          | tail _ hx2 => exact hpre x hx2 tx hxt

/-- First-occurrence characterization of the `chosen` slot: the retained
file is the first qualifying candidate reaching the final within-limit
maximum timestamp. -/
theorem aux_backup_first (c : Nat) (l : List String) :
    ∀ bak res, get_backup_aux c bak l = .ok res →
    ∀ ct cf, res.backup_time = some ct → res.backup_file = some cf →
    (bak.backup_time = some ct ∧ bak.backup_file = some cf) ∨
    (∃ pre post, l = pre ++ cf :: post ∧ candidate_time cf = some ct ∧ ct ≤ c ∧
      (∀ t0, bak.backup_time = some t0 → t0 < ct) ∧
      (∀ x ∈ pre, ∀ tx, candidate_time x = some tx → tx ≤ c → tx < ct)) := by
  induction l with
  | nil =>
    intro bak res h ct cf hct hcf
    rw [get_backup_aux] at h
    cases h
    exact Or.inl ⟨hct, hcf⟩
  | cons f rest ih =>
    intro bak res h ct cf hbt hbf
    rw [get_backup_aux] at h
    unfold process_candidate at h
    cases hparse : candidate_time f with
    | none => rw [hparse] at h; cases h
    | some t =>
      rw [hparse] at h
      rcases ih _ _ h ct cf hbt hbf with ⟨hat, haf⟩ | ⟨pre, post, hsplit, hclf, hq, hacc, hpre⟩
      · rcases apply_backup_cases c bak f t with ⟨h1, h2, h3, h4⟩ | ⟨h1, h2, _⟩
        · rw [h1] at hat
          cases hat
          rw [h2] at haf
          cases haf
          right
          refine ⟨[], rest, rfl, hparse, h3, h4, ?_⟩
          intro x hx
          cases hx
        · left
          exact ⟨h1.symm.trans hat, h2.symm.trans haf⟩
      · right
        refine ⟨f :: pre, post, by simp [hsplit], hclf, hq, ?_, ?_⟩
        · intro t0 ht0
          rcases apply_backup_mono c bak f t t0 ht0 with ⟨t1, ht1, hle1⟩
          exact Nat.lt_of_le_of_lt hle1 (hacc t1 ht1)
        · intro x hx tx hxt hxq
          cases hx with
          | head =>
            rw [hparse] at hxt
            cases hxt
            rcases apply_backup_ub c bak f t hxq with ⟨t1, ht1, hle1⟩
            exact Nat.lt_of_le_of_lt hle1 (hacc t1 ht1)
          | tail _ hx2 => exact hpre x hx2 tx hxt hxq

/-! ### Invariants of the Orchestrator loop -/

/-- The original files the loop classifies as missing. -/
def missing_of (env : Env) : List String → List String
  | [] => []
  | f :: rest =>
    match process_file env f with
    | .ok .missing => f :: missing_of env rest
    | _ => missing_of env rest

/-- The recovered-file rows the loop appends. -/
def recovered_of (env : Env) : List String → List RecoveredEntry
  | [] => []
  | f :: rest =>
    match process_file env f with
    | .ok (.recovered e) => e :: recovered_of env rest
    | _ => recovered_of env rest

/-- Sequential decomposition of the loop. -/
theorem recover_go_append (env : Env) (l1 l2 : List String) :
    ∀ acc, recover_go env (l1 ++ l2) acc =
      match recover_go env l1 acc with
      | .error e => .error e
      | .ok acc2 => recover_go env l2 acc2 := by
  induction l1 with
  | nil =>
    intro acc
    rfl
  | cons f rest ih =>
    intro acc
    rw [List.cons_append, recover_go, recover_go]
    cases process_file env f with
    | error e => rfl
    | ok o => exact ih (apply_outcome acc f o)

/-- Full characterization of a completed loop run: the missing and
recovered lists grow by exactly the per-file classifications, and every
other field of the accumulator is left untouched. -/
theorem recover_go_spec (env : Env) (l : List String) :
    ∀ acc res, recover_go env l acc = .ok res →
    res.missing_files = acc.missing_files ++ missing_of env l ∧
    res.recovered_files = acc.recovered_files ++ recovered_of env l ∧
    res.possibly_corrupted_files = acc.possibly_corrupted_files ∧
    res.total_original = acc.total_original ∧
    res.total_missing = acc.total_missing ∧
    res.total_recovered = acc.total_recovered ∧
    res.total_possibly_corrupted = acc.total_possibly_corrupted ∧
    res.earliest_file_used = acc.earliest_file_used ∧
    res.earliest_time_used = acc.earliest_time_used ∧
    res.latest_file_used = acc.latest_file_used ∧
    res.latest_time_used = acc.latest_time_used := by
  induction l with
  | nil =>
    intro acc res h
    rw [recover_go] at h
    cases h
    simp [missing_of, recovered_of]
  | cons f rest ih =>
    intro acc res h
    rw [recover_go] at h
    cases hpf : process_file env f with
    | error e => rw [hpf] at h; cases h
    | ok o =>
      rw [hpf] at h
      have hrec := ih _ _ h
      rw [missing_of, recovered_of, hpf]
      cases o with
      | missing =>
        simpa [apply_outcome] using hrec
      | copy_error =>
        simpa [apply_outcome] using hrec
      | recovered e =>
        simpa [apply_outcome] using hrec

/-- Membership in `missing_of` means the per-file classification was
`missing`. -/
theorem mem_missing_of (env : Env) (l : List String) :
    ∀ f, f ∈ missing_of env l → process_file env f = .ok .missing := by
  induction l with
  | nil =>
    intro f hf
    cases hf
  | cons g rest ih =>
    intro f hf
    rw [missing_of] at hf
    cases hpf : process_file env g with
    | error e =>
      rw [hpf] at hf
      exact ih f hf
    | ok o =>
      rw [hpf] at hf
      cases o with
      | missing =>
        cases hf with
        | head => exact hpf
        | tail _ hf2 => exact ih f hf2
      | copy_error => exact ih f hf
      | recovered e => exact ih f hf

/-- Membership in `recovered_of` means the per-file classification was
`recovered` for the original file the entry names. -/
theorem mem_recovered_of (env : Env) (l : List String) :
    ∀ e, e ∈ recovered_of env l →
    ∃ f, f ∈ l ∧ process_file env f = .ok (.recovered e) := by
  induction l with
  | nil =>
    intro e he
    cases he
  | cons g rest ih =>
    intro e he
    rw [recovered_of] at he
    cases hpf : process_file env g with
    | error e2 =>
      rw [hpf] at he
      rcases ih e he with ⟨f, hf, hpff⟩
      exact ⟨f, List.mem_cons_of_mem g hf, hpff⟩
    | ok o =>
      rw [hpf] at he
      cases o with
      | missing =>
        rcases ih e he with ⟨f, hf, hpff⟩
        exact ⟨f, List.mem_cons_of_mem g hf, hpff⟩
      | copy_error =>
        rcases ih e he with ⟨f, hf, hpff⟩
        exact ⟨f, List.mem_cons_of_mem g hf, hpff⟩
      | recovered e2 =>
        cases he with
        | head => exact ⟨g, List.mem_cons_self g rest, hpf⟩
        | tail _ he2 =>
          rcases ih e he2 with ⟨f, hf, hpff⟩
          exact ⟨f, List.mem_cons_of_mem g hf, hpff⟩

/-- A recovered row names the original file it was produced for. -/
theorem process_file_recovered_original (env : Env) (f : String)
    (e : RecoveredEntry) (h : process_file env f = .ok (.recovered e)) :
    e.original = f := by
  unfold process_file at h
  split at h
  · simp at h
  · split at h
    · simp at h
    · split at h
      · simp at h
      · split at h
        · simp at h
        · split at h
          · injection h with h1
            injection h1 with h2
            subst h2
            rfl
          · simp at h

/-- If one file in the list makes the per-file step raise, the whole run
returns an error (the exception propagates; no later file is processed). -/
theorem recover_go_error_mem (env : Env) (l : List String) :
    ∀ acc f, f ∈ l → process_file env f = .error () →
    recover_go env l acc = .error () := by
  induction l with
  | nil =>
    intro acc f hf
    cases hf
  | cons g rest ih =>
    intro acc f hf herr
    rw [recover_go]
    cases hpf : process_file env g with
    | error e =>
      cases e
      rfl
    | ok o =>
      cases hf with
      | head =>
        rw [herr] at hpf
        cases hpf
      | tail _ hf2 => exact ih _ f hf2 herr

/-- If every candidate of a nonempty list fails to qualify or the selector
raises, captured at the aux level: a malformed candidate in the list makes
the selector loop raise. -/
theorem get_backup_aux_error_mem (c : Nat) (l : List String) :
    ∀ bak f, f ∈ l → candidate_time f = none →
    get_backup_aux c bak l = .error () := by
  induction l with
  | nil =>
    intro bak f hf
    cases hf
  | cons g rest ih =>
    intro bak f hf hnone
    rw [get_backup_aux]
    unfold process_candidate
    cases hct : candidate_time g with
    | none => rfl
    | some t =>
      cases hf with
      | head =>
        rw [hnone] at hct
        cases hct
      | tail _ hf2 => exact ih _ f hf2 hnone

/-! ### Claim theorems -/

/-- C2: for every candidate set `C` and cutoff `T`, if the Selector's chosen
result (`backup_time`) is defined, its timestamp is at most `T`, it is the
timestamp of some candidate of `C`, and it dominates the timestamp of every
candidate of `C` whose timestamp is at most `T` (inclusive cutoff
comparison). -/
theorem claim_C2_chosen_is_max (T : Nat) (C : List String) (bak : BackupFileInfo)
    (t : Nat) (h : get_backup_file_info T C = .ok bak)
    (ht : bak.backup_time = some t) :
    t ≤ T ∧ (∃ x ∈ C, candidate_time x = some t) ∧
      ∀ x ∈ C, ∀ tx, candidate_time x = some tx → tx ≤ T → tx ≤ t := by
  unfold get_backup_file_info at h
  refine ⟨?_, ?_, ?_⟩
  · refine aux_backup_le T C _ _ h ?_ t ht
    intro tb htb
    cases htb
  · rcases aux_backup_origin T C _ _ h t ht with hinit | hmem
    · cases hinit
    · exact hmem
  · intro x hx tx hxt hq
    rcases aux_backup_ub T C _ _ h x hx tx hxt hq with ⟨tb2, htb2, hle⟩
    rw [ht] at htb2
    cases htb2
    exact hle

/-- Witness for C2 on the spec's own scenario (two candidates, both within
the cutoff `20240714-210000`; the chosen one is the 19:00 revision). -/
theorem claim_C2_chosen_is_max_witness :
    (20240714190000 : Nat) ≤ 20240714210000 ∧
    (∃ x ∈ ["notes~20240714-120000.txt", "notes~20240714-190000.txt"],
        candidate_time x = some 20240714190000) ∧
    ∀ x ∈ ["notes~20240714-120000.txt", "notes~20240714-190000.txt"],
      ∀ tx, candidate_time x = some tx → tx ≤ 20240714210000 →
        tx ≤ 20240714190000 :=
  claim_C2_chosen_is_max 20240714210000
    ["notes~20240714-120000.txt", "notes~20240714-190000.txt"]
    { count := 2, latest_time := some 20240714190000,
      latest_file := some "notes~20240714-190000.txt",
      latest_outside_limit := false,
      backup_file := some "notes~20240714-190000.txt",
      backup_time := some 20240714190000 }
    20240714190000 (by rfl) (by rfl)

/-- C6: whenever both the latest and the chosen results are defined, the
latest timestamp dominates the chosen timestamp, and the latest timestamp is
the maximum over all candidates of `C`. -/
theorem claim_C6_latest_dominates (T : Nat) (C : List String)
    (bak : BackupFileInfo) (lt ct : Nat)
    (h : get_backup_file_info T C = .ok bak)
    (hl : bak.latest_time = some lt) (hc : bak.backup_time = some ct) :
    ct ≤ lt ∧ (∃ x ∈ C, candidate_time x = some lt) ∧
      ∀ x ∈ C, ∀ tx, candidate_time x = some tx → tx ≤ lt := by
  unfold get_backup_file_info at h
  have horigin : ∃ x ∈ C, candidate_time x = some ct := by
    rcases aux_backup_origin T C _ _ h ct hc with hinit | hmem
    · cases hinit
    · exact hmem
  have hlorigin : ∃ x ∈ C, candidate_time x = some lt := by
    rcases aux_latest_origin T C _ _ h lt hl with hinit | hmem
    · cases hinit
    · exact hmem
  have hub : ∀ x ∈ C, ∀ tx, candidate_time x = some tx → tx ≤ lt := by
    intro x hx tx hxt
    rcases aux_latest_ub T C _ _ h x hx tx hxt with ⟨tl2, htl2, hle⟩
    rw [hl] at htl2
    cases htl2
    exact hle
  rcases horigin with ⟨x, hx, hxt⟩
  exact ⟨hub x hx ct hxt, hlorigin, hub⟩

/-- Witness for C6 on the spec's second scenario (a third candidate past
the cutoff becomes `latest`). -/
theorem claim_C6_latest_dominates_witness :
    (20240714190000 : Nat) ≤ 20240715030000 ∧
    (∃ x ∈ ["notes~20240714-120000.txt", "notes~20240714-190000.txt",
            "notes~20240715-030000.txt"],
        candidate_time x = some 20240715030000) ∧
    ∀ x ∈ ["notes~20240714-120000.txt", "notes~20240714-190000.txt",
           "notes~20240715-030000.txt"],
      ∀ tx, candidate_time x = some tx → tx ≤ 20240715030000 :=
  claim_C6_latest_dominates 20240714210000
    ["notes~20240714-120000.txt", "notes~20240714-190000.txt",
     "notes~20240715-030000.txt"]
    { count := 3, latest_time := some 20240715030000,
      latest_file := some "notes~20240715-030000.txt",
      latest_outside_limit := true,
      backup_file := some "notes~20240714-190000.txt",
      backup_time := some 20240714190000 }
    20240715030000 20240714190000 (by rfl) (by rfl) (by rfl)

/-- C5 counterexample: with two distinct candidates sharing the identical
(maximal) timestamp, the Selector retains the FIRST candidate encountered in
both slots — not the last, as the claim states — because both running-maximum
guards use a strict comparison. -/
theorem claim_C5_last_wins_cex :
    get_backup_file_info 20240714210000
        ["a~20240714-120000.txt", "b~20240714-120000.txt"] =
      .ok { count := 2, latest_time := some 20240714120000,
            latest_file := some "a~20240714-120000.txt",
            latest_outside_limit := false,
            backup_file := some "a~20240714-120000.txt",
            backup_time := some 20240714120000 } ∧
    candidate_time "a~20240714-120000.txt"
      = candidate_time "b~20240714-120000.txt" ∧
    ("a~20240714-120000.txt" : String) ≠ "b~20240714-120000.txt" := by
  refine ⟨rfl, rfl, ?_⟩
  decide

/-- C5 amended: the candidate retained in the `latest` slot is the FIRST
candidate attaining the final maximum timestamp (every earlier candidate has
a strictly smaller timestamp), and likewise the `chosen` slot retains the
first qualifying candidate attaining the final within-cutoff maximum. -/
theorem claim_C5_first_wins (T : Nat) (C : List String) (bak : BackupFileInfo)
    (h : get_backup_file_info T C = .ok bak) :
    (∀ lt lf, bak.latest_time = some lt → bak.latest_file = some lf →
      ∃ pre post, C = pre ++ lf :: post ∧ candidate_time lf = some lt ∧
        ∀ x ∈ pre, ∀ tx, candidate_time x = some tx → tx < lt) ∧
    (∀ ct cf, bak.backup_time = some ct → bak.backup_file = some cf →
      ∃ pre post, C = pre ++ cf :: post ∧ candidate_time cf = some ct ∧
        ct ≤ T ∧
        ∀ x ∈ pre, ∀ tx, candidate_time x = some tx → tx ≤ T → tx < ct) := by
  unfold get_backup_file_info at h
  constructor
  · intro lt lf hlt hlf
    rcases aux_latest_first T C _ _ h lt lf hlt hlf with
      ⟨hat, _⟩ | ⟨pre, post, hsplit, hclf, _, hpre⟩
    · cases hat
    · exact ⟨pre, post, hsplit, hclf, hpre⟩
  · intro ct cf hct hcf
    rcases aux_backup_first T C _ _ h ct cf hct hcf with
      ⟨hat, _⟩ | ⟨pre, post, hsplit, hclf, hq, _, hpre⟩
    · cases hat
    · exact ⟨pre, post, hsplit, hclf, hq, hpre⟩

/-- Witness for the amended C5 on the tied-timestamp pair: the retained
candidate is the first of the two. -/
theorem claim_C5_first_wins_witness :
    ∃ pre post,
      ["a~20240714-120000.txt", "b~20240714-120000.txt"]
        = pre ++ "a~20240714-120000.txt" :: post ∧
      candidate_time "a~20240714-120000.txt" = some 20240714120000 ∧
      ∀ x ∈ pre, ∀ tx, candidate_time x = some tx → tx < 20240714120000 :=
  (claim_C5_first_wins 20240714210000
    ["a~20240714-120000.txt", "b~20240714-120000.txt"]
    { count := 2, latest_time := some 20240714120000,
      latest_file := some "a~20240714-120000.txt",
      latest_outside_limit := false,
      backup_file := some "a~20240714-120000.txt",
      backup_time := some 20240714120000 }
    (by rfl)).1 20240714120000 "a~20240714-120000.txt" rfl rfl

/-- A found last-occurrence index is a valid index. -/
theorem rfindIdx_lt_length (c : Char) :
    ∀ l : List Char, ∀ i, rfindIdx c l = some i → i < l.length := by
  intro l
  induction l with
  | nil =>
    intro i h
    cases h
  | cons x xs ih =>
    intro i h
    rw [rfindIdx] at h
    cases hr : rfindIdx c xs with
    | some j =>
      rw [hr] at h
      cases h
      exact Nat.succ_lt_succ (ih j hr)
    | none =>
      rw [hr] at h
      by_cases hx : x = c
      · rw [if_pos hx] at h
        cases h
        exact Nat.succ_pos _
      · rw [if_neg hx] at h
        cases h

/-- Equation for `os_splitext` when no '.' occurs. -/
theorem os_splitext_eq_none (f : String) (h : rfindIdx '.' f.toList = none) :
    os_splitext f = (f, "") := by
  unfold os_splitext
  rw [h]

/-- Equation for `os_splitext` at the index of the last '.'. -/
theorem os_splitext_eq_some (f : String) (di : Nat)
    (h : rfindIdx '.' f.toList = some di) :
    os_splitext f =
      (if split_index f.toList ≤ di then
        if ((f.toList.drop (split_index f.toList)).take
              (di - split_index f.toList)).any (fun x => x ≠ '.') then
          ((f.toList.take di).asString, (f.toList.drop di).asString)
        else (f, "")
      else (f, "")) := by
  unfold os_splitext
  rw [h]

/-- `os.path.splitext` either leaves the input whole with an empty
extension, or splits at a valid index of the last '.'. -/
theorem os_splitext_spec (f : String) :
    os_splitext f = (f, "") ∨
    ∃ di, rfindIdx '.' f.toList = some di ∧ di < f.toList.length ∧
      os_splitext f
        = ((f.toList.take di).asString, (f.toList.drop di).asString) := by
  cases hdi : rfindIdx '.' f.toList with
  | none => exact Or.inl (os_splitext_eq_none f hdi)
  | some di =>
    rw [os_splitext_eq_some f di hdi]
    split
    · split
      · exact Or.inr ⟨di, rfl, rfindIdx_lt_length '.' f.toList di hdi, rfl⟩
      · exact Or.inl rfl
    · exact Or.inl rfl

/-- When `os.path.splitext` returns an empty extension, the name part is the
whole input. -/
theorem os_splitext_ext_empty (f : String) (h : (os_splitext f).2 = "") :
    (os_splitext f).1 = f := by
  rcases os_splitext_spec f with heq | ⟨di, _, hlt, heq⟩
  · rw [heq]
  · rw [heq] at h
    exfalso
    have hdrop : f.toList.drop di = [] := congrArg String.toList h
    have h4 : f.toList.length - di = 0 := by
      rw [← List.length_drop, hdrop]
      rfl
    have h5 : f.toList.length ≤ di := Nat.sub_eq_zero_iff_le.mp h4
    exact absurd hlt (Nat.not_lt.mpr h5)

/-- C8: when the platform-standard split gives an empty extension and a name
starting with '.', `split_extension` returns an empty base and the whole
original name as the extension; on every other filename it returns the
platform-standard split unchanged. -/
theorem claim_C8_split_extension (f : String) :
    (((os_splitext f).2 = "" ∧ starts_with (os_splitext f).1 "." = true) →
      split_extension f = ("", f)) ∧
    (¬((os_splitext f).2 = "" ∧ starts_with (os_splitext f).1 "." = true) →
      split_extension f = os_splitext f) := by
  constructor
  · intro hcond
    unfold split_extension
    rw [if_pos ⟨hcond.2, hcond.1⟩, os_splitext_ext_empty f hcond.1]
  · intro hcond
    unfold split_extension
    rw [if_neg (fun hc => hcond ⟨hc.2, hc.1⟩)]

/-- Witness for C8: the dotfile case swaps the roles; an ordinary filename
is split as by `os.path.splitext`. -/
theorem claim_C8_split_extension_witness :
    split_extension ".gitignore" = ("", ".gitignore") ∧
    split_extension "a.txt" = os_splitext "a.txt" :=
  ⟨(claim_C8_split_extension ".gitignore").1 (by decide),
   (claim_C8_split_extension "a.txt").2 (by decide)⟩

/-- Environment for the C1 scenario: one original file `notes.txt`, two
matching revisions, the later one past the cutoff `20240714-210000`, and a
copy primitive that succeeds. -/
def env_C1 : Env :=
  { backup_dir := "bak"
    recovery_dir := "rec"
    cutoff := 20240714210000
    listdir := fun p =>
      if p = "bak/" then
        some ["notes~20240714-190000.txt", "notes~20240715-030000.txt"]
      else none
    copy_ok := fun _ _ => true }

/-- Environment for the C3 scenario: `a.txt` has a single matching revision
with an unparsable timestamp segment, `b.txt` has a good one. -/
def env_C3 : Env :=
  { backup_dir := "bak"
    recovery_dir := "rec"
    cutoff := 20240714210000
    listdir := fun p =>
      if p = "bak/" then
        some ["a~bad.txt", "b~20240714-120000.txt"]
      else none
    copy_ok := fun _ _ => true }

/-- Environment for the C4 scenario: a chosen candidate exists but the copy
primitive always fails. -/
def env_C4 : Env :=
  { backup_dir := "bak"
    recovery_dir := "rec"
    cutoff := 20240714210000
    listdir := fun p =>
      if p = "bak/" then some ["n~20240714-120000.txt"] else none
    copy_ok := fun _ _ => false }

/-- Environment with no backup subdirectories at all. -/
def env_nodir : Env :=
  { backup_dir := "bak"
    recovery_dir := "rec"
    cutoff := 20240714210000
    listdir := fun _ => none
    copy_ok := fun _ _ => true }

/-- Equation for `process_file` when the backup subdirectory is absent. -/
theorem process_file_eq_none (env : Env) (f : String)
    (h : env.listdir (backup_dir_of env f) = none) :
    process_file env f = .ok .missing := by
  unfold process_file
  rw [h]

/-- Equation for `process_file` when the backup subdirectory exists. -/
theorem process_file_eq_some (env : Env) (f : String) (entries : List String)
    (h : env.listdir (backup_dir_of env f) = some entries) :
    process_file env f =
      (if (candidate_filter (basename f) entries).isEmpty then .ok .missing
       else
        match get_backup_file_info env.cutoff (candidate_filter (basename f) entries) with
        | .error e => .error e
        | .ok backup_info =>
          match backup_info.backup_file with
          | none => .ok .missing
          | some bfile =>
            if env.copy_ok (backup_path_of env f bfile) (recovery_path_of env f) then
              .ok (.recovered
                { original := f
                  backup_file := bfile
                  backup_time := backup_info.backup_time
                  count := backup_info.count
                  latest_outside_limit := backup_info.latest_outside_limit
                  latest_file := backup_info.latest_file
                  latest_time := backup_info.latest_time })
            else .ok .copy_error) := by
  unfold process_file
  rw [h]

/-- C3 counterexample: one unparsable candidate timestamp makes the whole
run raise (`.error ()`), rather than skipping the candidate and continuing;
the same store with only the well-formed file recovers it fine, so the
second file was never processed. -/
theorem claim_C3_skip_cex :
    find_and_copy_backup env_C3 ["a.txt", "b.txt"] = .error () ∧
    find_and_copy_backup env_C3 ["b.txt"] =
      .ok { total_original := 1,
            recovered_files := [
              { original := "b.txt",
                backup_file := "b~20240714-120000.txt",
                backup_time := some 20240714120000,
                count := 1,
                latest_outside_limit := false,
                latest_file := some "b~20240714-120000.txt",
                latest_time := some 20240714120000 }] } :=
  ⟨rfl, rfl⟩

/-- C3 amended: a candidate filename with an unparsable timestamp segment is
not skipped — the `ValueError` from `strptime` propagates and aborts the
whole run, whatever files come before or after. -/
theorem claim_C3_malformed_aborts (env : Env) (pre post : List String)
    (f bad : String) (entries : List String)
    (hls : env.listdir (backup_dir_of env f) = some entries)
    (hmem : bad ∈ candidate_filter (basename f) entries)
    (hbad : candidate_time bad = none) :
    find_and_copy_backup env (pre ++ f :: post) = .error () := by
  have hne : (candidate_filter (basename f) entries).isEmpty = false := by
    cases hcf : candidate_filter (basename f) entries with
    | nil =>
      rw [hcf] at hmem
      cases hmem
    | cons a l => rfl
  have hget : get_backup_file_info env.cutoff
      (candidate_filter (basename f) entries) = .error () := by
    unfold get_backup_file_info
    exact get_backup_aux_error_mem env.cutoff _ _ bad hmem hbad
  have hpf : process_file env f = .error () := by
    rw [process_file_eq_some env f entries hls,
        if_neg (by rw [hne]; exact Bool.false_ne_true), hget]
  unfold find_and_copy_backup
  exact recover_go_error_mem env _ _ f (by simp) hpf

/-- Witness for the amended C3: with a well-formed file before and after,
the malformed `a~bad.txt` candidate still kills the entire run. -/
theorem claim_C3_malformed_aborts_witness :
    find_and_copy_backup env_C3 (["y.txt"] ++ "a.txt" :: ["b.txt"]) = .error () :=
  claim_C3_malformed_aborts env_C3 ["y.txt"] ["b.txt"] "a.txt" "a~bad.txt"
    ["a~bad.txt", "b~20240714-120000.txt"] (by rfl) (by decide) (by rfl)

/-- C4: when a chosen candidate exists but the copy primitive fails, the
file's iteration is classified as a copy error, contributes to neither the
missing nor the recovered list, and the loop continues with the remaining
files exactly as if the file had not been in the input. -/
theorem claim_C4_copy_error_skips (env : Env) (pre post : List String)
    (f : String) (entries : List String) (bak : BackupFileInfo) (bfile : String)
    (hls : env.listdir (backup_dir_of env f) = some entries)
    (hsel : get_backup_file_info env.cutoff
      (candidate_filter (basename f) entries) = .ok bak)
    (hchosen : bak.backup_file = some bfile)
    (hcopy : env.copy_ok (backup_path_of env f bfile)
      (recovery_path_of env f) = false) :
    process_file env f = .ok .copy_error ∧
    ∀ acc, recover_go env (pre ++ f :: post) acc
      = recover_go env (pre ++ post) acc := by
  have hne : (candidate_filter (basename f) entries).isEmpty = false := by
    cases hcf : candidate_filter (basename f) entries with
    | nil =>
      rw [hcf] at hsel
      unfold get_backup_file_info at hsel
      rw [get_backup_aux] at hsel
      cases hsel
      cases hchosen
    | cons a l => rfl
  have hpf : process_file env f = .ok .copy_error := by
    rw [process_file_eq_some env f entries hls,
        if_neg (by rw [hne]; exact Bool.false_ne_true), hsel]
    simp only [hchosen, hcopy, Bool.false_eq_true, if_false]
  refine ⟨hpf, ?_⟩
  intro acc
  rw [recover_go_append env pre (f :: post) acc,
      recover_go_append env pre post acc]
  cases hgo : recover_go env pre acc with
  | error e => rfl
  | ok acc2 =>
    show recover_go env (f :: post) acc2 = recover_go env post acc2
    rw [recover_go, hpf]
    rfl

/-- Witness for C4: with a failing copy primitive, the file contributes
nothing and the following file is still processed. -/
theorem claim_C4_copy_error_skips_witness :
    process_file env_C4 "n.txt" = .ok .copy_error ∧
    ∀ acc, recover_go env_C4 ([] ++ "n.txt" :: ["z.txt"]) acc
      = recover_go env_C4 ([] ++ ["z.txt"]) acc :=
  claim_C4_copy_error_skips env_C4 [] ["z.txt"] "n.txt"
    ["n~20240714-120000.txt"]
    { count := 1, latest_time := some 20240714120000,
      latest_file := some "n~20240714-120000.txt",
      latest_outside_limit := false,
      backup_file := some "n~20240714-120000.txt",
      backup_time := some 20240714120000 }
    "n~20240714-120000.txt" (by rfl) (by rfl) (by rfl) (by rfl)

/-- C7: when the expected backup subdirectory does not exist, the file is
classified missing by that fact alone — no candidate listing is consulted —
and it lands in the missing list of any completed run containing it. -/
theorem claim_C7_no_dir_is_missing (env : Env) (f : String)
    (pre post : List String)
    (hls : env.listdir (backup_dir_of env f) = none) :
    process_file env f = .ok .missing ∧
    ∀ res, find_and_copy_backup env (pre ++ f :: post) = .ok res →
      f ∈ res.missing_files := by
  have hpf : process_file env f = .ok .missing := process_file_eq_none env f hls
  refine ⟨hpf, ?_⟩
  intro res hres
  unfold find_and_copy_backup at hres
  rw [recover_go_append] at hres
  cases hgo : recover_go env pre (recovery_init (pre ++ f :: post).length) with
  | error e =>
    rw [hgo] at hres
    cases hres
  | ok acc2 =>
    rw [hgo] at hres
    have hres2 : recover_go env (f :: post) acc2 = .ok res := hres
    rw [recover_go, hpf] at hres2
    have hspec := recover_go_spec env post (apply_outcome acc2 f .missing) res hres2
    rw [hspec.1]
    simp [apply_outcome]

/-- Witness for C7: with no backup directories at all, the lone file is
missing. -/
theorem claim_C7_no_dir_is_missing_witness :
    process_file env_nodir "x.txt" = .ok .missing ∧
    ∀ res, find_and_copy_backup env_nodir ([] ++ "x.txt" :: []) = .ok res →
      "x.txt" ∈ res.missing_files :=
  claim_C7_no_dir_is_missing env_nodir "x.txt" [] [] (by rfl)

/-- Disjointness of the missing and recovered lists for any run started
from the freshly initialized accumulator. -/
theorem run_disjoint (env : Env) (l : List String) (n : Nat)
    (acc : FileRecoveryResult)
    (h : recover_go env l (recovery_init n) = .ok acc) :
    ∀ f, ¬(f ∈ acc.missing_files ∧
      f ∈ acc.recovered_files.map RecoveredEntry.original) := by
  intro f hf
  rcases hf with ⟨hm, hr⟩
  have hspec := recover_go_spec env l _ _ h
  rw [hspec.1] at hm
  rw [hspec.2.1] at hr
  simp only [recovery_init, List.nil_append] at hm hr
  have hmf := mem_missing_of env l f hm
  rcases List.mem_map.mp hr with ⟨e, he, horig⟩
  rcases mem_recovered_of env l e he with ⟨g, _, hpg⟩
  have hog : e.original = g := process_file_recovered_original env g e hpg
  rw [hog] at horig
  rw [horig] at hpg
  rw [hmf] at hpg
  simp at hpg

/-- C9: in every completed run, no file is both in the missing list and
among the originals of the recovered list; and the same holds for the
accumulator after every prefix of the iteration. -/
theorem claim_C9_partition (env : Env) (files : List String)
    (res : FileRecoveryResult)
    (h : find_and_copy_backup env files = .ok res) :
    (∀ f, ¬(f ∈ res.missing_files ∧
      f ∈ res.recovered_files.map RecoveredEntry.original)) ∧
    ∀ l1 l2 acc, files = l1 ++ l2 →
      recover_go env l1 (recovery_init files.length) = .ok acc →
      ∀ f, ¬(f ∈ acc.missing_files ∧
        f ∈ acc.recovered_files.map RecoveredEntry.original) := by
  constructor
  · exact run_disjoint env files files.length res h
  · intro l1 l2 acc _ hgo
    exact run_disjoint env l1 files.length acc hgo

/-- Witness for C9 on a one-file run that classifies the file missing. -/
theorem claim_C9_partition_witness :
    ¬("x.txt" ∈ ({ total_original := 1, missing_files := ["x.txt"] }
        : FileRecoveryResult).missing_files ∧
      "x.txt" ∈ ({ total_original := 1, missing_files := ["x.txt"] }
        : FileRecoveryResult).recovered_files.map RecoveredEntry.original) :=
  (claim_C9_partition env_nodir ["x.txt"]
    { total_original := 1, missing_files := ["x.txt"] } (by rfl)).1 "x.txt"

/-- C10: the aggregate counters and the earliest/latest-used fields of the
result are never updated by the orchestrator: in every completed run they
keep their initial values (0 and undefined). -/
theorem claim_C10_frame (env : Env) (files : List String)
    (res : FileRecoveryResult)
    (h : find_and_copy_backup env files = .ok res) :
    res.total_missing = 0 ∧ res.total_recovered = 0 ∧
    res.total_possibly_corrupted = 0 ∧
    res.earliest_file_used = none ∧ res.earliest_time_used = none ∧
    res.latest_file_used = none ∧ res.latest_time_used = none := by
  have hspec := recover_go_spec env files _ _ h
  exact ⟨hspec.2.2.2.2.1, hspec.2.2.2.2.2.1, hspec.2.2.2.2.2.2.1,
    hspec.2.2.2.2.2.2.2.1, hspec.2.2.2.2.2.2.2.2.1,
    hspec.2.2.2.2.2.2.2.2.2.1, hspec.2.2.2.2.2.2.2.2.2.2⟩

/-- Witness for C10 on a run that recovers one file and misses another. -/
theorem claim_C10_frame_witness :
    ({ total_original := 2,
       missing_files := ["ghost.txt"],
       recovered_files := [
         { original := "notes.txt",
           backup_file := "notes~20240714-190000.txt",
           backup_time := some 20240714190000,
           count := 2,
           latest_outside_limit := true,
           latest_file := some "notes~20240715-030000.txt",
           latest_time := some 20240715030000 }] }
      : FileRecoveryResult).total_missing = 0 ∧
    ({ total_original := 2,
       missing_files := ["ghost.txt"],
       recovered_files := [
         { original := "notes.txt",
           backup_file := "notes~20240714-190000.txt",
           backup_time := some 20240714190000,
           count := 2,
           latest_outside_limit := true,
           latest_file := some "notes~20240715-030000.txt",
           latest_time := some 20240715030000 }] }
      : FileRecoveryResult).total_recovered = 0 ∧
    ({ total_original := 2,
       missing_files := ["ghost.txt"],
       recovered_files := [
         { original := "notes.txt",
           backup_file := "notes~20240714-190000.txt",
           backup_time := some 20240714190000,
           count := 2,
           latest_outside_limit := true,
           latest_file := some "notes~20240715-030000.txt",
           latest_time := some 20240715030000 }] }
      : FileRecoveryResult).total_possibly_corrupted = 0 ∧
    ({ total_original := 2,
       missing_files := ["ghost.txt"],
       recovered_files := [
         { original := "notes.txt",
           backup_file := "notes~20240714-190000.txt",
           backup_time := some 20240714190000,
           count := 2,
           latest_outside_limit := true,
           latest_file := some "notes~20240715-030000.txt",
           latest_time := some 20240715030000 }] }
      : FileRecoveryResult).earliest_file_used = none ∧
    ({ total_original := 2,
       missing_files := ["ghost.txt"],
       recovered_files := [
         { original := "notes.txt",
           backup_file := "notes~20240714-190000.txt",
           backup_time := some 20240714190000,
           count := 2,
           latest_outside_limit := true,
           latest_file := some "notes~20240715-030000.txt",
           latest_time := some 20240715030000 }] }
      : FileRecoveryResult).earliest_time_used = none ∧
    ({ total_original := 2,
       missing_files := ["ghost.txt"],
       recovered_files := [
         { original := "notes.txt",
           backup_file := "notes~20240714-190000.txt",
           backup_time := some 20240714190000,
           count := 2,
           latest_outside_limit := true,
           latest_file := some "notes~20240715-030000.txt",
           latest_time := some 20240715030000 }] }
      : FileRecoveryResult).latest_file_used = none ∧
    ({ total_original := 2,
       missing_files := ["ghost.txt"],
       recovered_files := [
         { original := "notes.txt",
           backup_file := "notes~20240714-190000.txt",
           backup_time := some 20240714190000,
           count := 2,
           latest_outside_limit := true,
           latest_file := some "notes~20240715-030000.txt",
           latest_time := some 20240715030000 }] }
      : FileRecoveryResult).latest_time_used = none :=
  claim_C10_frame env_C1 ["notes.txt", "ghost.txt"] _ (by rfl)

/-- C1: evaluation of the orchestrator at the spec's own
possibly-corrupted scenario.  The file is recovered and its row records
`latest_outside_limit = true` (the latest revision is past the cutoff), yet
the possibly-corrupted list of the result is empty: `find_and_copy_backup`
never appends to `possibly_corrupted_files`, although the dataclass
documents that field and `main` writes it to the possibly-corrupted log.
The claim's required behavior — the file appearing in both the recovered
list and the possibly-corrupted list — does not hold on the code. -/
theorem claim_C1_overlay_never_set :
    find_and_copy_backup env_C1 ["notes.txt"] =
      .ok { total_original := 1,
            missing_files := [],
            recovered_files := [
              { original := "notes.txt",
                backup_file := "notes~20240714-190000.txt",
                backup_time := some 20240714190000,
                count := 2,
                latest_outside_limit := true,
                latest_file := some "notes~20240715-030000.txt",
                latest_time := some 20240715030000 }],
            possibly_corrupted_files := [] } :=
  rfl

end SyncRec
